import Mathlib

/-!
Shallow embedding of `obspy.imaging.spectrogram` (file
`trunk/obspy.imaging/obspy/imaging/spectrogram.py`), covering the numeric
pipeline: FFT-size selection (`nearestPow2`), segmentation planning, the
spectral-estimation call, amplitude transform, color normalization and
axis binning.  Real-valued quantities are modelled over `ℚ`; the Python
`int(...)` truncation on the (always positive) values involved is modelled
by `Int.floor`; `math.floor (log2 x)` and `math.ceil (log2 x)` are modelled
by `Int.log 2 x` and `Int.clog 2 x`.
-/

namespace Spectrogram

/-- Embedding of `nearestPow2(x)`:
`a = 2**ceil(log2 x)`, `b = 2**floor(log2 x)`;
return `a` if `abs(a - x) < abs(b - x)` else `b`. -/
def nearestPow2 (x : ℚ) : ℚ :=
  let a : ℚ := 2 ^ Int.clog 2 x
  let b : ℚ := 2 ^ Int.log 2 x
  if |a - x| < |b - x| then a else b

/-- Embedding of the window-length default
`if not wlen: wlen = samp_rate / 100.` — Python truthiness makes both an
omitted (`None`) and a zero `wlen` select the default. -/
def resolveWlen (samp_rate : ℚ) (wlen : Option ℚ) : ℚ :=
  match wlen with
  | none => samp_rate / 100
  | some w => if w = 0 then samp_rate / 100 else w

/-- Embedding of
`nfft = int(nearestPow2(wlen * samp_rate)); if nfft > npts: nfft = int(nearestPow2(npts / 8.0))`.
Python `int(...)` truncation of the (positive) power of two is `Int.floor`. -/
def planNfft (npts : ℕ) (wlen samp_rate : ℚ) : ℤ :=
  let nfft := ⌊nearestPow2 (wlen * samp_rate)⌋
  if nfft > (npts : ℤ) then ⌊nearestPow2 ((npts : ℚ) / 8)⌋ else nfft

/-- Embedding of `if mult != None: mult = int(nearestPow2(mult)); mult = mult * nfft`;
the result is passed to the estimator as `pad_to`. -/
def planPadTo (mult : Option ℚ) (nfft : ℤ) : Option ℤ :=
  mult.map (fun m => ⌊nearestPow2 m⌋ * nfft)

/-- Embedding of `nlap = int(nfft * float(per_lap))`. -/
def planNlap (nfft : ℤ) (per_lap : ℚ) : ℤ := ⌊(nfft : ℚ) * per_lap⌋

/-- Error outcomes of the embedded pipeline: `invalidParameter` is the
`ValueError("Invalid parameters for clip option.")`, `indexError` is numpy's
`IndexError` on an out-of-bounds index, `configurationError` is the
spec-mandated rejection by the spectral estimator. -/
inductive SpecError
  | invalidParameter
  | configurationError
  | indexError
  deriving DecidableEq

/-- The estimator's direct output: power grid `S` (one row per frequency
bin, one column per segment), frequency vector, time vector. -/
structure RawSpectrum where
  S : List (List ℚ)
  freq : List ℚ
  time : List ℚ
  deriving DecidableEq

/-- Modelled from the spec: the Spectral Estimator (the `mlab.specgram`
call; matplotlib's code is not part of this repository).  Per spec section 4.3
it must reject a configuration with `nfft > npts` with a configuration error;
otherwise it partitions the detrended signal into segments of length `nfft`
advancing by `nfft - noverlap` samples, and produces a one-sided grid of
`nfft/2 + 1` frequency rows with `freq[i] = i * fs / nfft'` (`nfft'` the
post-padding length) and `time[j]` the centre time of segment `j`.  The
magnitude-squared FFT values are represented by the uninterpreted parameter
`power`. -/
def specgramEst (power : ℕ → ℕ → ℚ) (data : List ℚ) (samp_rate : ℚ)
    (nfft : ℕ) (padTo : Option ℕ) (nlap : ℕ) : Except SpecError RawSpectrum :=
  let npts := data.length
  if nfft > npts then .error .configurationError
  else
    let nfftP := padTo.getD nfft
    let numFreqs := nfft / 2 + 1
    let step := nfft - nlap
    let numSegs := (npts - nfft) / step + 1
    .ok { S := (List.range numFreqs).map fun i => (List.range numSegs).map fun j => power i j
          freq := (List.range numFreqs).map fun i => ((i : ℕ) : ℚ) * samp_rate / (nfftP : ℚ)
          time := (List.range numSegs).map fun j =>
            (((j * step : ℕ) : ℚ) + (nfft : ℚ) / 2) / samp_rate }

/-- Embedding of the amplitude transform:
`spectrogram = 10 * np.log10(spectrogram[1:, :])` when `dbscale`, otherwise
`spectrogram = np.sqrt(spectrogram[1:, :])`.  `rlog10` and `rsqrt` are
uninterpreted stand-ins for the transcendental element-wise `log10` and
`sqrt`. -/
def ampTransform (rlog10 rsqrt : ℚ → ℚ) (dbscale : Bool)
    (S : List (List ℚ)) : List (List ℚ) :=
  if dbscale then (S.drop 1).map (fun row => row.map (fun v => 10 * rlog10 v))
  else (S.drop 1).map (fun row => row.map rsqrt)

/-- Embedding of `spectrogram.min()` over the 2-D grid (defined only for
nonempty grids in numpy; the default value is never reached on the
pipeline's grids). -/
def gridMin (S : List (List ℚ)) : ℚ := (S.flatten.min?).getD 0

/-- Embedding of `spectrogram.max()` over the 2-D grid. -/
def gridMax (S : List (List ℚ)) : ℚ := (S.flatten.max?).getD 0

/-- The bounds passed to `Normalize(vmin, vmax, clip=True)`. -/
structure ColorScale where
  vmin : ℚ
  vmax : ℚ
  deriving DecidableEq

/-- Embedding of the clip validation and normalization bounds:
`vmin, vmax = clip; if vmin < 0 or vmax > 1 or vmin >= vmax: raise ValueError`;
then `range = max - min; vmin = min + vmin*range; vmax = min + vmax*range`. -/
def colorNormalizer (S : List (List ℚ)) (clip : ℚ × ℚ) :
    Except SpecError ColorScale :=
  if clip.1 < 0 ∨ clip.2 > 1 ∨ clip.1 ≥ clip.2 then .error .invalidParameter
  else
    let smin := gridMin S
    let r := gridMax S - smin
    .ok ⟨smin + clip.1 * r, smin + clip.2 * r⟩

/-- Embedding of `halfbin_time = (time[1] - time[0]) / 2.0` and
`halfbin_freq = (freq[1] - freq[0]) / 2.0`; numpy raises an index error when
index 1 is out of bounds (`time` is indexed first, as in the source). -/
def halfbins (time freq : List ℚ) : Except SpecError (ℚ × ℚ) :=
  match time.get? 1, time.get? 0, freq.get? 1, freq.get? 0 with
  | some t1, some t0, some f1, some f0 => .ok ((t1 - t0) / 2, (f1 - f0) / 2)
  | _, _, _, _ => .error .indexError

/-- Embedding of the logarithmic-mode edge construction for one axis:
append one extra edge `v[-1] + 2 * halfbin`, then shift every element down
by `halfbin`. -/
def logEdges (v : List ℚ) (halfbin : ℚ) : List ℚ :=
  (v ++ [v.getLastD 0 + 2 * halfbin]).map (fun s => s - halfbin)

/-- Axis metadata handed to the renderer: bin edges in logarithmic mode, a
bounding extent rectangle in linear mode. -/
inductive AxisDescriptor
  | logAxes (freqEdges timeEdges : List ℚ)
  | extent (tMin tMax fMin fMax : ℚ)
  deriving DecidableEq

/-- The numeric result handed to the renderer. -/
structure Output where
  grid : List (List ℚ)
  freq : List ℚ
  scale : ColorScale
  axis : AxisDescriptor
  deriving DecidableEq

/-- Pipeline events: `spectrumComputed` records that the `mlab.specgram`
call (the FFT work) was performed. -/
inductive Event
  | spectrumComputed
  deriving DecidableEq

/-- Embedding of the detrend step `data = data - data.mean()`. -/
def detrend (data : List ℚ) : List ℚ :=
  data.map (fun s => s - data.sum / (data.length : ℚ))

/-- The `nfft` the pipeline plans for a given signal: `npts = len(data)`,
`wlen` resolved through Python truthiness. -/
def plannedNfft (data : List ℚ) (samp_rate : ℚ) (wlenOpt : Option ℚ) : ℤ :=
  planNfft data.length (resolveWlen samp_rate wlenOpt) samp_rate

/-- The estimator call exactly as the pipeline makes it: detrended data,
planned `nfft`, `pad_to` and `noverlap`. -/
def runEstimator (power : ℕ → ℕ → ℚ) (data : List ℚ)
    (samp_rate per_lap : ℚ) (wlenOpt : Option ℚ) (mult : Option ℚ) :
    Except SpecError RawSpectrum :=
  specgramEst power (detrend data) samp_rate
    (plannedNfft data samp_rate wlenOpt).toNat
    ((planPadTo mult (plannedNfft data samp_rate wlenOpt)).map Int.toNat)
    (planNlap (plannedNfft data samp_rate wlenOpt) per_lap).toNat

/-- The stages the source runs after the `mlab.specgram` call, in source
order: amplitude transform with DC-row removal, clip validation and color
normalization, half-bin widths, then axis binning (logarithmic mode) or
extent with the `flipud` row flip (linear mode). -/
def postEstimation (rlog10 rsqrt : ℚ → ℚ) (logMode dbscale : Bool)
    (clip : ℚ × ℚ) (raw : RawSpectrum) : Except SpecError Output :=
  let S1 := ampTransform rlog10 rsqrt dbscale raw.S
  let freq1 := raw.freq.drop 1
  match colorNormalizer S1 clip with
  | .error e => .error e
  | .ok cs =>
    match halfbins raw.time freq1 with
    | .error e => .error e
    | .ok (hbt, hbf) =>
      if logMode then
        .ok ⟨S1, freq1, cs, .logAxes (logEdges freq1 hbf) (logEdges raw.time hbt)⟩
      else
        .ok ⟨S1.reverse, freq1, cs,
          .extent (raw.time.headD 0 - hbt) (raw.time.getLastD 0 + hbt)
            (freq1.headD 0 - hbf) (freq1.getLastD 0 + hbf)⟩

/-- Embedding of the numeric pipeline of `spectrogram(...)`, in source
order: window-length default, segmentation plan, detrend, spectral
estimation, then the post-estimation stages.  The returned event list
records whether the FFT work had been performed when the call completed or
failed. -/
def spectrogramRun (power : ℕ → ℕ → ℚ) (rlog10 rsqrt : ℚ → ℚ) (data : List ℚ)
    (samp_rate per_lap : ℚ) (wlenOpt : Option ℚ) (logMode dbscale : Bool)
    (mult : Option ℚ) (clip : ℚ × ℚ) : List Event × Except SpecError Output :=
  match runEstimator power data samp_rate per_lap wlenOpt mult with
  | .error e => ([], .error e)
  | .ok raw =>
    ([.spectrumComputed], postEstimation rlog10 rsqrt logMode dbscale clip raw)

/-- Uniform spacing of an axis vector: consecutive differences agree. -/
def uniformlySpaced (v : List ℚ) : Prop :=
  ∀ i a b c, v.get? i = some a → v.get? (i + 1) = some b →
    v.get? (i + 2) = some c → b - a = c - b

/-- The raw spectrum the modelled estimator returns in the 1000-sample,
100 Hz, `nfft = 128`, `pad_to = 1024`, `noverlap = 115` scenario. -/
def rawScenario (power : ℕ → ℕ → ℚ) : RawSpectrum :=
  ⟨(List.range 65).map fun i => (List.range 68).map fun j => power i j,
   (List.range 65).map fun i => ((i : ℕ) : ℚ) * 100 / 1024,
   (List.range 68).map fun j => (((j * 13 : ℕ) : ℚ) + (128 : ℚ) / 2) / 100⟩

/-- The raw spectrum the modelled estimator returns in the 16-sample,
100 Hz scenario, where the fallback gives `nfft = 2` (a single post-DC
frequency bin). -/
def rawSmall (power : ℕ → ℕ → ℚ) : RawSpectrum :=
  ⟨(List.range 2).map fun i => (List.range 15).map fun j => power i j,
   (List.range 2).map fun i => ((i : ℕ) : ℚ) * 100 / 16,
   (List.range 15).map fun j => (((j * 1 : ℕ) : ℚ) + (2 : ℚ) / 2) / 100⟩

lemma two_cast_q : ((2 : ℕ) : ℚ) = (2 : ℚ) := by norm_num

/-- Characterisation used to evaluate `Int.log 2` at concrete rationals. -/
lemma int_log2_eq {x : ℚ} {k : ℤ} (h1 : (2 : ℚ) ^ k ≤ x) (h2 : x < 2 ^ (k + 1)) :
    Int.log 2 x = k := by
  have hx : 0 < x := lt_of_lt_of_le (zpow_pos two_pos k) h1
  have hk : k ≤ Int.log 2 x := by
    have h := (Int.zpow_le_iff_le_log (R := ℚ) (b := 2) (x := k) one_lt_two hx).mp
    rw [two_cast_q] at h
    exact h h1
  have hk2 : Int.log 2 x < k + 1 := by
    by_contra h
    push_neg at h
    have h3 := (Int.zpow_le_iff_le_log (R := ℚ) (b := 2) (x := k + 1) one_lt_two hx).mpr h
    rw [two_cast_q] at h3
    exact absurd h2 (not_lt.mpr h3)
  omega

/-- Characterisation used to evaluate `Int.clog 2` at concrete rationals. -/
lemma int_clog2_eq {x : ℚ} {k : ℤ} (h0 : 0 < x) (h1 : (2 : ℚ) ^ (k - 1) < x)
    (h2 : x ≤ 2 ^ k) : Int.clog 2 x = k := by
  have hk : Int.clog 2 x ≤ k := by
    have h := (Int.le_zpow_iff_clog_le (R := ℚ) (b := 2) (x := k) one_lt_two h0).mp
    rw [two_cast_q] at h
    exact h h2
  have hk2 : k - 1 < Int.clog 2 x := by
    by_contra h
    push_neg at h
    have h3 := (Int.le_zpow_iff_clog_le (R := ℚ) (b := 2) (x := k - 1) one_lt_two h0).mpr h
    rw [two_cast_q] at h3
    exact absurd h1 (not_lt.mpr h3)
  omega

lemma log2_three : Int.log 2 (3 : ℚ) = 1 :=
  int_log2_eq (by norm_num) (by norm_num)

lemma clog2_three : Int.clog 2 (3 : ℚ) = 2 :=
  int_clog2_eq (by norm_num) (by norm_num) (by norm_num)

lemma nearestPow2_three : nearestPow2 3 = 2 := by
  unfold nearestPow2
  rw [log2_three, clog2_three]
  norm_num

lemma log2_fifteen : Int.log 2 (15 : ℚ) = 3 :=
  int_log2_eq (by norm_num) (by norm_num)

lemma clog2_fifteen : Int.clog 2 (15 : ℚ) = 4 :=
  int_clog2_eq (by norm_num) (by norm_num) (by norm_num)

lemma nearestPow2_fifteen : nearestPow2 15 = 16 := by
  unfold nearestPow2
  rw [log2_fifteen, clog2_fifteen]
  norm_num

lemma log2_eight : Int.log 2 (8 : ℚ) = 3 :=
  int_log2_eq (by norm_num) (by norm_num)

lemma clog2_eight : Int.clog 2 (8 : ℚ) = 3 :=
  int_clog2_eq (by norm_num) (by norm_num) (by norm_num)

lemma nearestPow2_eight : nearestPow2 8 = 8 := by
  unfold nearestPow2
  rw [log2_eight, clog2_eight]
  norm_num

lemma int_log2_le_self {x : ℚ} (hx : 0 < x) : (2 : ℚ) ^ Int.log 2 x ≤ x := by
  have h := Int.zpow_log_le_self (R := ℚ) (b := 2) one_lt_two hx
  rwa [two_cast_q] at h

lemma self_le_int_clog2 (x : ℚ) : x ≤ (2 : ℚ) ^ Int.clog 2 x := by
  have h := Int.self_le_zpow_clog (R := ℚ) (b := 2) one_lt_two x
  rwa [two_cast_q] at h

lemma self_lt_int_log2_succ (x : ℚ) : x < (2 : ℚ) ^ (Int.log 2 x + 1) := by
  have h := Int.lt_zpow_succ_log_self (R := ℚ) (b := 2) one_lt_two x
  rwa [two_cast_q] at h

lemma int_clog2_le_log2_succ {x : ℚ} (hx : 0 < x) :
    Int.clog 2 x ≤ Int.log 2 x + 1 := by
  have h := (Int.le_zpow_iff_clog_le (R := ℚ) (b := 2)
    (x := Int.log 2 x + 1) one_lt_two hx).mp
  rw [two_cast_q] at h
  exact h (self_lt_int_log2_succ x).le

lemma int_log2_le_clog2 {x : ℚ} (hx : 0 < x) : Int.log 2 x ≤ Int.clog 2 x := by
  have h : (2 : ℚ) ^ Int.log 2 x ≤ 2 ^ Int.clog 2 x :=
    le_trans (int_log2_le_self hx) (self_le_int_clog2 x)
  exact (zpow_le_zpow_iff_right₀ (one_lt_two (α := ℚ))).mp h

lemma log2_zpow (k : ℤ) : Int.log 2 ((2 : ℚ) ^ k) = k := by
  rw [← two_cast_q]
  exact Int.log_zpow one_lt_two k

lemma clog2_zpow (k : ℤ) : Int.clog 2 ((2 : ℚ) ^ k) = k := by
  rw [← two_cast_q]
  exact Int.clog_zpow one_lt_two k

/-- The function `nearestPow2` always returns one of the two candidate powers. -/
lemma nearestPow2_cases (x : ℚ) :
    nearestPow2 x = 2 ^ Int.clog 2 x ∨ nearestPow2 x = 2 ^ Int.log 2 x := by
  unfold nearestPow2
  by_cases h : |(2 : ℚ) ^ Int.clog 2 x - x| < |(2 : ℚ) ^ Int.log 2 x - x|
  · exact Or.inl (by simp [h])
  · exact Or.inr (by simp [h])

lemma nearestPow2_dist_le_a (x : ℚ) :
    |nearestPow2 x - x| ≤ |(2 : ℚ) ^ Int.clog 2 x - x| := by
  unfold nearestPow2
  by_cases h : |(2 : ℚ) ^ Int.clog 2 x - x| < |(2 : ℚ) ^ Int.log 2 x - x|
  · simp [h]
  · simp only [h, if_false]
    exact not_lt.mp h

lemma nearestPow2_dist_le_b (x : ℚ) :
    |nearestPow2 x - x| ≤ |(2 : ℚ) ^ Int.log 2 x - x| := by
  unfold nearestPow2
  by_cases h : |(2 : ℚ) ^ Int.clog 2 x - x| < |(2 : ℚ) ^ Int.log 2 x - x|
  · simp only [h, if_true]
    exact h.le
  · simp [h]

/-- No power of two is strictly closer to `x` than `nearestPow2 x`. -/
lemma nearestPow2_nearest {x : ℚ} (hx : 0 < x) (k : ℤ) :
    |nearestPow2 x - x| ≤ |(2 : ℚ) ^ k - x| := by
  rcases le_or_lt k (Int.log 2 x) with hk | hk
  · have h1 : (2 : ℚ) ^ k ≤ 2 ^ Int.log 2 x :=
      zpow_le_zpow_right₀ (one_le_two (α := ℚ)) hk
    have h2 : (2 : ℚ) ^ Int.log 2 x ≤ x := int_log2_le_self hx
    calc |nearestPow2 x - x| ≤ |(2 : ℚ) ^ Int.log 2 x - x| := nearestPow2_dist_le_b x
      _ = x - 2 ^ Int.log 2 x := by rw [abs_sub_comm, abs_of_nonneg (by linarith)]
      _ ≤ x - 2 ^ k := by linarith
      _ = |(2 : ℚ) ^ k - x| := by rw [abs_sub_comm, abs_of_nonneg (by linarith)]
  · have hck : Int.clog 2 x ≤ k := le_trans (int_clog2_le_log2_succ hx) hk
    have h1 : (2 : ℚ) ^ Int.clog 2 x ≤ 2 ^ k :=
      zpow_le_zpow_right₀ (one_le_two (α := ℚ)) hck
    have h2 : x ≤ (2 : ℚ) ^ Int.clog 2 x := self_le_int_clog2 x
    calc |nearestPow2 x - x| ≤ |(2 : ℚ) ^ Int.clog 2 x - x| := nearestPow2_dist_le_a x
      _ = 2 ^ Int.clog 2 x - x := abs_of_nonneg (by linarith)
      _ ≤ 2 ^ k - x := by linarith
      _ = |(2 : ℚ) ^ k - x| := (abs_of_nonneg (by linarith)).symm

/-- Ties go to the smaller power: any power of two at the same distance from
`x` as the returned value is at least the returned value. -/
lemma nearestPow2_tie {x : ℚ} (hx : 0 < x) (k : ℤ)
    (h : |(2 : ℚ) ^ k - x| = |nearestPow2 x - x|) : nearestPow2 x ≤ 2 ^ k := by
  have hbx : (2 : ℚ) ^ Int.log 2 x ≤ x := int_log2_le_self hx
  have hxa : x ≤ (2 : ℚ) ^ Int.clog 2 x := self_le_int_clog2 x
  unfold nearestPow2 at h ⊢
  by_cases hif : |(2 : ℚ) ^ Int.clog 2 x - x| < |(2 : ℚ) ^ Int.log 2 x - x|
  · simp only [hif, if_true] at h ⊢
    by_contra hcon
    push_neg at hcon
    have hk : k < Int.clog 2 x :=
      (zpow_lt_zpow_iff_right₀ (one_lt_two (α := ℚ))).mp hcon
    have hkl : k ≤ Int.log 2 x := by
      have := int_clog2_le_log2_succ hx
      omega
    have h1 : (2 : ℚ) ^ k ≤ 2 ^ Int.log 2 x :=
      zpow_le_zpow_right₀ (one_le_two (α := ℚ)) hkl
    have h2 : |(2 : ℚ) ^ k - x| = x - 2 ^ k := by
      rw [abs_sub_comm, abs_of_nonneg (by linarith)]
    have h3 : |(2 : ℚ) ^ Int.log 2 x - x| = x - 2 ^ Int.log 2 x := by
      rw [abs_sub_comm, abs_of_nonneg (by linarith)]
    rw [h2] at h
    rw [h3] at hif
    linarith
  · simp only [hif, if_false] at h ⊢
    by_contra hcon
    push_neg at hcon
    have hk : k < Int.log 2 x :=
      (zpow_lt_zpow_iff_right₀ (one_lt_two (α := ℚ))).mp hcon
    have h2 : |(2 : ℚ) ^ k - x| = x - 2 ^ k := by
      rw [abs_sub_comm, abs_of_nonneg (by linarith)]
    have h3 : |(2 : ℚ) ^ Int.log 2 x - x| = x - 2 ^ Int.log 2 x := by
      rw [abs_sub_comm, abs_of_nonneg (by linarith)]
    rw [h2, h3] at h
    linarith

/-- An exact power of two is returned unchanged. -/
lemma nearestPow2_self_pow (k : ℤ) : nearestPow2 ((2 : ℚ) ^ k) = 2 ^ k := by
  unfold nearestPow2
  rw [log2_zpow, clog2_zpow]
  simp

/-- C1: for every rational `x > 0`, `nearestPow2 x` is a power of two,
no power of two is strictly closer to `x`, any power of two equidistant
from `x` is at least the returned (smaller) value, an exact power of two
is returned unchanged, and `nearestPow2 3 = 2`, `nearestPow2 15 = 16`,
`nearestPow2 8 = 8`. -/
theorem nearestPow2_correct (x : ℚ) (hx : 0 < x) :
    (∃ k : ℤ, nearestPow2 x = 2 ^ k) ∧
    (∀ k : ℤ, |nearestPow2 x - x| ≤ |(2 : ℚ) ^ k - x|) ∧
    (∀ k : ℤ, |(2 : ℚ) ^ k - x| = |nearestPow2 x - x| → nearestPow2 x ≤ 2 ^ k) ∧
    (∀ k : ℤ, x = 2 ^ k → nearestPow2 x = x) ∧
    nearestPow2 3 = 2 ∧ nearestPow2 15 = 16 ∧ nearestPow2 8 = 8 := by
  refine ⟨?_, fun k => nearestPow2_nearest hx k, fun k => nearestPow2_tie hx k,
    ?_, nearestPow2_three, nearestPow2_fifteen, nearestPow2_eight⟩
  · rcases nearestPow2_cases x with h | h
    · exact ⟨Int.clog 2 x, h⟩
    · exact ⟨Int.log 2 x, h⟩
  · rintro k rfl
    exact nearestPow2_self_pow k

/-- Witness for C1 at the concrete inputs `3`, `15`, `8`. -/
theorem nearestPow2_correct_witness :
    nearestPow2 3 = 2 ∧ nearestPow2 15 = 16 ∧ nearestPow2 8 = 8 :=
  ⟨(nearestPow2_correct 3 (by norm_num)).2.2.2.2.1,
   (nearestPow2_correct 15 (by norm_num)).2.2.2.2.2.1,
   (nearestPow2_correct 8 (by norm_num)).2.2.2.2.2.2⟩

/-- The selected power of two never exceeds twice the (positive) input. -/
lemma nearestPow2_le_two_mul {x : ℚ} (hx : 0 < x) : nearestPow2 x ≤ 2 * x := by
  have hbx := int_log2_le_self hx
  have hb_pos : (0 : ℚ) < 2 ^ Int.log 2 x := zpow_pos two_pos _
  have hxa := self_le_int_clog2 x
  unfold nearestPow2
  by_cases hif : |(2 : ℚ) ^ Int.clog 2 x - x| < |(2 : ℚ) ^ Int.log 2 x - x|
  · simp only [hif, if_true]
    have h1 : |(2 : ℚ) ^ Int.clog 2 x - x| = 2 ^ Int.clog 2 x - x :=
      abs_of_nonneg (by linarith)
    have h2 : |(2 : ℚ) ^ Int.log 2 x - x| = x - 2 ^ Int.log 2 x := by
      rw [abs_sub_comm, abs_of_nonneg (by linarith)]
    rw [h1, h2] at hif
    linarith
  · simp only [hif, if_false]
    linarith

/-- The fallback value `int(nearestPow2(npts / 8.0))` is at most `npts`. -/
lemma floor_nearestPow2_div8_le (npts : ℕ) (hn : 1 ≤ npts) :
    ⌊nearestPow2 ((npts : ℚ) / 8)⌋ ≤ (npts : ℤ) := by
  have hnq : (1 : ℚ) ≤ (npts : ℚ) := by exact_mod_cast hn
  have hp : (0 : ℚ) < (npts : ℚ) / 8 := by linarith
  have h := nearestPow2_le_two_mul hp
  have h2 : nearestPow2 ((npts : ℚ) / 8) ≤ (npts : ℚ) := by linarith
  calc ⌊nearestPow2 ((npts : ℚ) / 8)⌋ ≤ ⌊(npts : ℚ)⌋ := Int.floor_mono h2
    _ = (npts : ℤ) := Int.floor_natCast npts

lemma nearestPow2_hundred_eighth : nearestPow2 ((100 : ℚ) / 8) = 16 := by
  have hl : Int.log 2 ((100 : ℚ) / 8) = 3 := int_log2_eq (by norm_num) (by norm_num)
  have hc : Int.clog 2 ((100 : ℚ) / 8) = 4 :=
    int_clog2_eq (by norm_num) (by norm_num) (by norm_num)
  unfold nearestPow2
  rw [hl, hc]
  norm_num
  rw [abs_of_nonneg (by norm_num : (0 : ℚ) ≤ 7 / 2),
    abs_of_nonneg (by norm_num : (0 : ℚ) ≤ 9 / 2)]
  norm_num

/-- C2: for `npts ≥ 1` the planned `nfft` never exceeds `npts`; the fallback
value `int(nearestPow2(npts/8))` itself never exceeds `npts`; whenever the
initial `nfft` exceeds `npts` the plan equals the fallback value; and for
`npts = 100` the fallback value is `16`. -/
theorem planNfft_le_npts (npts : ℕ) (hn : 1 ≤ npts) (wlen samp_rate : ℚ)
    (_hw : 0 < wlen * samp_rate) :
    planNfft npts wlen samp_rate ≤ (npts : ℤ) ∧
    ⌊nearestPow2 ((npts : ℚ) / 8)⌋ ≤ (npts : ℤ) ∧
    (⌊nearestPow2 (wlen * samp_rate)⌋ > (npts : ℤ) →
      planNfft npts wlen samp_rate = ⌊nearestPow2 ((npts : ℚ) / 8)⌋) ∧
    ⌊nearestPow2 ((100 : ℚ) / 8)⌋ = 16 := by
  refine ⟨?_, floor_nearestPow2_div8_le npts hn, ?_, ?_⟩
  · unfold planNfft
    by_cases h : ⌊nearestPow2 (wlen * samp_rate)⌋ > (npts : ℤ)
    · simp only [h, if_true]
      exact floor_nearestPow2_div8_le npts hn
    · simp only [h, if_false]
      exact not_lt.mp h
  · intro h
    unfold planNfft
    simp only [h, if_true]
  · rw [nearestPow2_hundred_eighth]
    norm_num

/-- Witness for C2: `npts = 100`, `wlen = 1`, `samp_rate = 128` triggers the
fallback (`nearestPow2 128 = 128 > 100`) and yields `nfft = 16 ≤ 100`. -/
theorem planNfft_le_npts_witness :
    planNfft 100 1 128 = 16 ∧ planNfft 100 1 128 ≤ (100 : ℤ) := by
  obtain ⟨hle, -, hfb, h16⟩ := planNfft_le_npts 100 (by norm_num) 1 128 (by norm_num)
  have h128 : nearestPow2 ((1 : ℚ) * 128) = 128 := by
    have h : ((1 : ℚ) * 128) = (2 : ℚ) ^ (7 : ℤ) := by norm_num
    rw [h, nearestPow2_self_pow]
    norm_num
  have htrig : ⌊nearestPow2 ((1 : ℚ) * 128)⌋ > ((100 : ℕ) : ℤ) := by
    rw [h128]
    norm_num
  exact ⟨(hfb htrig).trans h16, hle⟩

/-- C5: the Color Normalizer fails with `invalidParameter` exactly when
`lowFrac < 0`, `highFrac > 1` or `lowFrac ≥ highFrac`; in particular it
rejects `(0.5, 0.3)`, `(-0.1, 1)` and `(0, 1.2)` and accepts `(0, 1)` and
`(0.1, 0.9)`. -/
theorem colorNormalizer_validation (S : List (List ℚ)) (clip : ℚ × ℚ) :
    (colorNormalizer S clip = .error .invalidParameter ↔
      clip.1 < 0 ∨ clip.2 > 1 ∨ clip.1 ≥ clip.2) ∧
    colorNormalizer S (1 / 2, 3 / 10) = .error .invalidParameter ∧
    colorNormalizer S (-1 / 10, 1) = .error .invalidParameter ∧
    colorNormalizer S (0, 6 / 5) = .error .invalidParameter ∧
    (∃ cs, colorNormalizer S (0, 1) = .ok cs) ∧
    (∃ cs, colorNormalizer S (1 / 10, 9 / 10) = .ok cs) := by
  refine ⟨?_, by norm_num [colorNormalizer], by norm_num [colorNormalizer],
    by norm_num [colorNormalizer], ?_, ?_⟩
  · by_cases h : clip.1 < 0 ∨ clip.2 > 1 ∨ clip.1 ≥ clip.2 <;>
      simp [colorNormalizer, h]
  · exact ⟨⟨gridMin S, gridMax S⟩, by norm_num [colorNormalizer]⟩
  · exact ⟨⟨gridMin S + 1 / 10 * (gridMax S - gridMin S),
      gridMin S + 9 / 10 * (gridMax S - gridMin S)⟩,
      by norm_num [colorNormalizer]⟩

/-- C6: the Amplitude Transform drops exactly the DC row from the grid
(output row `i` is input row `i + 1` mapped through `10 * log10` when
`dbscale`, through `sqrt` otherwise) and the DC entry from the frequency
vector, so the output has one row fewer and, for a strictly ascending
frequency vector, the DC frequency no longer occurs. -/
theorem ampTransform_drops_dc (rlog10 rsqrt : ℚ → ℚ) (dbscale : Bool)
    (S : List (List ℚ)) (freq : List ℚ) :
    (ampTransform rlog10 rsqrt dbscale S).length = S.length - 1 ∧
    (freq.drop 1).length = freq.length - 1 ∧
    (∀ i : ℕ, (ampTransform rlog10 rsqrt dbscale S).get? i =
      (S.get? (i + 1)).map (fun row => row.map
        (fun v => if dbscale then 10 * rlog10 v else rsqrt v))) ∧
    (List.Sorted (· < ·) freq → ∀ f0, freq.head? = some f0 →
      f0 ∉ freq.drop 1) := by
  refine ⟨?_, by simp, ?_, ?_⟩
  · cases dbscale <;> simp [ampTransform]
  · intro i
    cases dbscale <;>
      simp [ampTransform, List.get?_map, List.get?_drop, Nat.add_comm 1 i]
  · intro hs f0 hf0 hmem
    cases freq with
    | nil => simp at hf0
    | cons a l =>
      simp at hf0
      subst hf0
      simp at hmem
      exact lt_irrefl _ ((List.sorted_cons.mp hs).1 _ hmem)

/-- Witness for C6 on a concrete grid and a concrete ascending frequency
vector. -/
theorem ampTransform_drops_dc_witness :
    (ampTransform id id false [[1], [2], [3]]).length = 2 ∧
    (0 : ℚ) ∉ ([0, 50, 100] : List ℚ).drop 1 := by
  refine ⟨(ampTransform_drops_dc id id false [[1], [2], [3]] [0, 50, 100]).1, ?_⟩
  refine (ampTransform_drops_dc id id false [[1], [2], [3]]
    [0, 50, 100]).2.2.2 ?_ 0 ?_
  · norm_num [List.sorted_cons]
  · rfl

/-- C7: the spectral estimator rejects any configuration whose `nfft`
exceeds the available sample count with a configuration error; no spectrum
is produced. -/
theorem specgramEst_rejects (power : ℕ → ℕ → ℚ) (data : List ℚ)
    (samp_rate : ℚ) (nfft : ℕ) (padTo : Option ℕ) (nlap : ℕ)
    (h : nfft > data.length) :
    specgramEst power data samp_rate nfft padTo nlap =
      .error .configurationError := by
  simp [specgramEst, h]

/-- Witness for C7: a 4-point FFT window on an empty signal is rejected. -/
theorem specgramEst_rejects_witness :
    specgramEst (fun _ _ => 0) [] 1 4 none 0 =
      .error .configurationError :=
  specgramEst_rejects (fun _ _ => 0) [] 1 4 none 0 (by simp)

/-- C10: an explicit `wlen = 0` is falsy in Python, so the default window
length `samp_rate / 100` is silently substituted and the whole run is
identical to the run with `wlen` omitted. -/
theorem wlen_zero_is_default (samp_rate : ℚ) (_hs : 0 < samp_rate)
    (power : ℕ → ℕ → ℚ) (rlog10 rsqrt : ℚ → ℚ) (data : List ℚ)
    (per_lap : ℚ) (logMode dbscale : Bool) (mult : Option ℚ)
    (clip : ℚ × ℚ) :
    resolveWlen samp_rate (some 0) = samp_rate / 100 ∧
    spectrogramRun power rlog10 rsqrt data samp_rate per_lap (some 0)
        logMode dbscale mult clip =
      spectrogramRun power rlog10 rsqrt data samp_rate per_lap none
        logMode dbscale mult clip := by
  constructor
  · simp [resolveWlen]
  · unfold spectrogramRun runEstimator plannedNfft
    rw [show resolveWlen samp_rate (some 0) = resolveWlen samp_rate none from
      by simp [resolveWlen]]

/-- Witness for C10 at `samp_rate = 100`: the substituted default is `1`. -/
theorem wlen_zero_is_default_witness : resolveWlen 100 (some 0) = 1 := by
  have h := (wlen_zero_is_default 100 (by norm_num) (fun _ _ => 0) id id []
    1 false false none (0, 1)).1
  norm_num at h
  exact h

lemma logEdges_length (v : List ℚ) (h : ℚ) :
    (logEdges v h).length = v.length + 1 := by
  simp [logEdges]

/-- Appending the extra edge and shifting keeps a strictly ascending vector
strictly ascending, provided the half-bin width is positive. -/
lemma logEdges_chain {v : List ℚ} {h : ℚ} (hv : List.Chain' (· < ·) v)
    (_hne : v ≠ []) (hpos : 0 < h) : List.Chain' (· < ·) (logEdges v h) := by
  unfold logEdges
  rw [List.chain'_map]
  refine List.chain'_append.mpr ⟨hv.imp (fun a b hab => by simpa using hab), ?_, ?_⟩
  · simp
  · intro x hx y hy
    rw [Option.mem_def] at hx hy
    simp only [List.head?_cons, Option.some.injEq] at hy
    subst hy
    have hlast : v.getLastD 0 = x := by
      rw [List.getLastD_eq_getLast?, hx]
      rfl
    show x - h < v.getLastD 0 + 2 * h - h
    rw [hlast]
    linarith

/-- C8: in logarithmic mode, for ascending uniformly spaced axis vectors of
length at least 2 the binner computes the half-bin widths, and each edge
vector (one extra appended edge, every element shifted down by the half-bin
width) has length one more than its input and is strictly increasing. -/
theorem axisBinner_log_spec (freq time : List ℚ)
    (hf : 2 ≤ freq.length) (ht : 2 ≤ time.length)
    (hfs : List.Chain' (· < ·) freq) (hts : List.Chain' (· < ·) time)
    (_hfu : uniformlySpaced freq) (_htu : uniformlySpaced time) :
    ∃ hbt hbf, halfbins time freq = .ok (hbt, hbf) ∧
      logEdges freq hbf =
        (freq ++ [freq.getLastD 0 + 2 * hbf]).map (fun s => s - hbf) ∧
      (logEdges freq hbf).length = freq.length + 1 ∧
      (logEdges time hbt).length = time.length + 1 ∧
      List.Chain' (· < ·) (logEdges freq hbf) ∧
      List.Chain' (· < ·) (logEdges time hbt) := by
  rcases freq with _ | ⟨f0, _ | ⟨f1, fr⟩⟩
  · simp at hf
  · simp at hf
  · rcases time with _ | ⟨t0, _ | ⟨t1, tr⟩⟩
    · simp at ht
    · simp at ht
    · refine ⟨(t1 - t0) / 2, (f1 - f0) / 2, rfl, rfl,
        logEdges_length _ _, logEdges_length _ _, ?_, ?_⟩
      · have hlt : f0 < f1 := (List.chain'_cons.mp hfs).1
        exact logEdges_chain hfs (by simp) (by linarith)
      · have hlt : t0 < t1 := (List.chain'_cons.mp hts).1
        exact logEdges_chain hts (by simp) (by linarith)

/-- Witness for C8 on `freq = [1, 2]`, `time = [0, 1]`. -/
theorem axisBinner_log_spec_witness :
    (logEdges [(1 : ℚ), 2] (1 / 2)).length = 3 ∧
    List.Chain' (· < ·) (logEdges [(1 : ℚ), 2] (1 / 2)) := by
  have hu2 : uniformlySpaced [(1 : ℚ), 2] := by
    intro i a b c h1 h2 h3
    have h4 := (List.get?_eq_some.mp h3).1
    simp at h4
  have hu0 : uniformlySpaced [(0 : ℚ), 1] := by
    intro i a b c h1 h2 h3
    have h4 := (List.get?_eq_some.mp h3).1
    simp at h4
  obtain ⟨hbt, hbf, heq, -, hlen, -, hch, -⟩ :=
    axisBinner_log_spec [(1 : ℚ), 2] [(0 : ℚ), 1] (by simp) (by simp)
      (by norm_num [List.chain'_cons]) (by norm_num [List.chain'_cons]) hu2 hu0
  have hcomp : halfbins [(0 : ℚ), 1] [(1 : ℚ), 2] = .ok (1 / 2, 1 / 2) := by
    norm_num [halfbins]
  rw [hcomp] at heq
  simp only [Except.ok.injEq, Prod.mk.injEq] at heq
  obtain ⟨h1, h2⟩ := heq
  rw [h2]
  exact ⟨hlen, hch⟩

lemma colorNormalizer_invalid {clip : ℚ × ℚ} (S : List (List ℚ))
    (h : clip.1 < 0 ∨ clip.2 > 1 ∨ clip.1 ≥ clip.2) :
    colorNormalizer S clip = .error .invalidParameter := by
  simp [colorNormalizer, h]

lemma colorNormalizer_ok {clip : ℚ × ℚ} (S : List (List ℚ))
    (h : ¬(clip.1 < 0 ∨ clip.2 > 1 ∨ clip.1 ≥ clip.2)) :
    colorNormalizer S clip =
      .ok ⟨gridMin S + clip.1 * (gridMax S - gridMin S),
           gridMin S + clip.2 * (gridMax S - gridMin S)⟩ := by
  simp [colorNormalizer, h]

lemma halfbins_indexError {time freq : List ℚ}
    (h : time.length = 1 ∨ freq.length = 1) :
    halfbins time freq = .error .indexError := by
  rcases time with _ | ⟨t0, _ | ⟨t1, ts⟩⟩ <;>
    rcases freq with _ | ⟨f0, _ | ⟨f1, fs⟩⟩ <;>
    simp [halfbins] at h ⊢

lemma detrend_length (data : List ℚ) : (detrend data).length = data.length := by
  simp [detrend]

/-- When the estimator succeeds, the run performs the FFT work (event
`spectrumComputed`) and continues with the post-estimation stages. -/
lemma spectrogramRun_ok {power : ℕ → ℕ → ℚ} {data : List ℚ}
    {samp_rate per_lap : ℚ} {wlenOpt : Option ℚ} {mult : Option ℚ}
    {raw : RawSpectrum} (rlog10 rsqrt : ℚ → ℚ) (logMode dbscale : Bool)
    (clip : ℚ × ℚ)
    (hok : runEstimator power data samp_rate per_lap wlenOpt mult = .ok raw) :
    spectrogramRun power rlog10 rsqrt data samp_rate per_lap wlenOpt logMode
        dbscale mult clip =
      ([.spectrumComputed],
        postEstimation rlog10 rsqrt logMode dbscale clip raw) := by
  unfold spectrogramRun
  rw [hok]

lemma postEstimation_invalid {clip : ℚ × ℚ} (rlog10 rsqrt : ℚ → ℚ)
    (logMode dbscale : Bool) (raw : RawSpectrum)
    (h : clip.1 < 0 ∨ clip.2 > 1 ∨ clip.1 ≥ clip.2) :
    postEstimation rlog10 rsqrt logMode dbscale clip raw =
      .error .invalidParameter := by
  simp only [postEstimation]
  rw [colorNormalizer_invalid _ h]

lemma postEstimation_indexError {clip : ℚ × ℚ} (rlog10 rsqrt : ℚ → ℚ)
    (logMode dbscale : Bool) (raw : RawSpectrum)
    (hbin : raw.time.length = 1 ∨ (raw.freq.drop 1).length = 1)
    (hclip : ¬(clip.1 < 0 ∨ clip.2 > 1 ∨ clip.1 ≥ clip.2)) :
    postEstimation rlog10 rsqrt logMode dbscale clip raw =
      .error .indexError := by
  simp only [postEstimation]
  rw [colorNormalizer_ok _ hclip, halfbins_indexError hbin]

lemma nearestPow2_hundred : nearestPow2 100 = 128 := by
  have hl : Int.log 2 (100 : ℚ) = 6 := int_log2_eq (by norm_num) (by norm_num)
  have hc : Int.clog 2 (100 : ℚ) = 7 :=
    int_clog2_eq (by norm_num) (by norm_num) (by norm_num)
  unfold nearestPow2
  rw [hl, hc]
  norm_num

lemma nearestPow2_two : nearestPow2 2 = 2 := by
  have h := nearestPow2_self_pow 1
  norm_num at h
  exact h

lemma planNfft_1000_1_100 : planNfft 1000 1 100 = 128 := by
  unfold planNfft
  rw [show (1 : ℚ) * 100 = 100 by norm_num, nearestPow2_hundred]
  norm_num

lemma planNfft_16_1_100 : planNfft 16 1 100 = 2 := by
  unfold planNfft
  rw [show (1 : ℚ) * 100 = 100 by norm_num, nearestPow2_hundred,
    show ((16 : ℕ) : ℚ) / 8 = 2 by norm_num, nearestPow2_two]
  norm_num

lemma plannedNfft_len1000 (data : List ℚ) (h : data.length = 1000) :
    plannedNfft data 100 none = 128 := by
  unfold plannedNfft
  rw [h, show resolveWlen 100 none = 1 by norm_num [resolveWlen]]
  exact planNfft_1000_1_100

lemma plannedNfft_len16 (data : List ℚ) (h : data.length = 16) :
    plannedNfft data 100 none = 2 := by
  unfold plannedNfft
  rw [h, show resolveWlen 100 none = 1 by norm_num [resolveWlen]]
  exact planNfft_16_1_100

lemma planPadTo_8_128 : planPadTo (some 8) 128 = some 1024 := by
  simp [planPadTo, nearestPow2_eight]

lemma planPadTo_8_2 : planPadTo (some 8) 2 = some 16 := by
  simp [planPadTo, nearestPow2_eight]

lemma planNlap_128 : planNlap 128 (9 / 10) = 115 := by
  norm_num [planNlap]

lemma planNlap_2 : planNlap 2 (9 / 10) = 1 := by
  norm_num [planNlap]

lemma specgramEst_eval_1000 (power : ℕ → ℕ → ℚ) (d : List ℚ)
    (h : d.length = 1000) :
    specgramEst power d 100 128 (some 1024) 115 = .ok (rawScenario power) := by
  unfold specgramEst rawScenario
  rw [h]
  norm_num

lemma specgramEst_eval_16 (power : ℕ → ℕ → ℚ) (d : List ℚ)
    (h : d.length = 16) :
    specgramEst power d 100 2 (some 16) 1 = .ok (rawSmall power) := by
  unfold specgramEst rawSmall
  rw [h]
  norm_num

lemma runEstimator_scenario (power : ℕ → ℕ → ℚ) (data : List ℚ)
    (h : data.length = 1000) :
    runEstimator power data 100 (9 / 10) none (some 8) =
      .ok (rawScenario power) := by
  unfold runEstimator
  rw [plannedNfft_len1000 data h, planPadTo_8_128, planNlap_128]
  exact specgramEst_eval_1000 power _ (by rw [detrend_length, h])

lemma runEstimator_small (power : ℕ → ℕ → ℚ) (data : List ℚ)
    (h : data.length = 16) :
    runEstimator power data 100 (9 / 10) none (some 8) =
      .ok (rawSmall power) := by
  unfold runEstimator
  rw [plannedNfft_len16 data h, planPadTo_8_2, planNlap_2]
  exact specgramEst_eval_16 power _ (by rw [detrend_length, h])

/-- C3 counterexample: on a 1000-sample signal with the invalid clip pair
`(0.5, 0.3)` the run does fail, but only after the FFT work: the event
trace already contains `spectrumComputed`, contradicting the claim that an
invalid clip pair fails without the short-time FFT being computed. -/
theorem clip_counterexample :
    (spectrogramRun (fun _ _ => 0) id id (List.replicate 1000 0) 100 (9 / 10)
        none false false (some 8) (1 / 2, 3 / 10)).2 =
      .error .invalidParameter ∧
    Event.spectrumComputed ∈ (spectrogramRun (fun _ _ => 0) id id
        (List.replicate 1000 0) 100 (9 / 10) none false false (some 8)
        (1 / 2, 3 / 10)).1 := by
  rw [spectrogramRun_ok id id false false (1 / 2, 3 / 10)
    (runEstimator_scenario (fun _ _ => 0) (List.replicate 1000 0)
      (List.length_replicate 1000 0)),
    postEstimation_invalid id id false false _ (by norm_num)]
  simp

/-- C3 (amended): parameter validation of the clip pair happens only after
the FFT work: whenever the estimator succeeds and the clip pair is
invalid, the run fails with `invalidParameter`, but the event trace
already contains `spectrumComputed`. -/
theorem clip_checked_after_fft (power : ℕ → ℕ → ℚ) (rlog10 rsqrt : ℚ → ℚ)
    (data : List ℚ) (samp_rate per_lap : ℚ) (wlenOpt : Option ℚ)
    (logMode dbscale : Bool) (mult : Option ℚ) (clip : ℚ × ℚ)
    (raw : RawSpectrum)
    (hok : runEstimator power data samp_rate per_lap wlenOpt mult = .ok raw)
    (hclip : clip.1 < 0 ∨ clip.2 > 1 ∨ clip.1 ≥ clip.2) :
    (spectrogramRun power rlog10 rsqrt data samp_rate per_lap wlenOpt
        logMode dbscale mult clip).2 = .error .invalidParameter ∧
    Event.spectrumComputed ∈ (spectrogramRun power rlog10 rsqrt data
        samp_rate per_lap wlenOpt logMode dbscale mult clip).1 := by
  rw [spectrogramRun_ok rlog10 rsqrt logMode dbscale clip hok,
    postEstimation_invalid rlog10 rsqrt logMode dbscale raw hclip]
  simp

/-- Witness for the amended C3: same 1000-sample signal, invalid clip pair
`(-0.1, 1)`. -/
theorem clip_checked_after_fft_witness :
    (spectrogramRun (fun _ _ => 0) id id (List.replicate 1000 0) 100 (9 / 10)
        none false false (some 8) (-1 / 10, 1)).2 =
      .error .invalidParameter ∧
    Event.spectrumComputed ∈ (spectrogramRun (fun _ _ => 0) id id
        (List.replicate 1000 0) 100 (9 / 10) none false false (some 8)
        (-1 / 10, 1)).1 :=
  clip_checked_after_fft (fun _ _ => 0) id id (List.replicate 1000 0) 100
    (9 / 10) none false false (some 8) (-1 / 10, 1) _
    (runEstimator_scenario (fun _ _ => 0) (List.replicate 1000 0)
      (List.length_replicate 1000 0)) (by norm_num)

/-- C9: when the estimator's output has a single time bin or a single
post-DC frequency bin (and the clip pair is valid, so the run reaches the
half-bin computation), the run fails with numpy's index error on `time[1]`
or `freq[1]` — not with a configuration error. -/
theorem single_bin_index_error (power : ℕ → ℕ → ℚ) (rlog10 rsqrt : ℚ → ℚ)
    (data : List ℚ) (samp_rate per_lap : ℚ) (wlenOpt : Option ℚ)
    (logMode dbscale : Bool) (mult : Option ℚ) (clip : ℚ × ℚ)
    (raw : RawSpectrum)
    (hok : runEstimator power data samp_rate per_lap wlenOpt mult = .ok raw)
    (hbin : raw.time.length = 1 ∨ (raw.freq.drop 1).length = 1)
    (hclip : ¬(clip.1 < 0 ∨ clip.2 > 1 ∨ clip.1 ≥ clip.2)) :
    (spectrogramRun power rlog10 rsqrt data samp_rate per_lap wlenOpt
        logMode dbscale mult clip).2 = .error .indexError := by
  rw [spectrogramRun_ok rlog10 rsqrt logMode dbscale clip hok,
    postEstimation_indexError rlog10 rsqrt logMode dbscale raw hbin hclip]

/-- Witness for C9: 16 samples at 100 Hz force the fallback `nfft = 2`,
giving a single post-DC frequency bin and an index error. -/
theorem single_bin_index_error_witness :
    (spectrogramRun (fun _ _ => 0) id id (List.replicate 16 0) 100 (9 / 10)
        none false false (some 8) (0, 1)).2 = .error .indexError :=
  single_bin_index_error (fun _ _ => 0) id id (List.replicate 16 0) 100
    (9 / 10) none false false (some 8) (0, 1) _
    (runEstimator_small (fun _ _ => 0) (List.replicate 16 0)
      (List.length_replicate 16 0))
    (Or.inr (by simp [rawSmall])) (by norm_num)

/-- C4: the end-to-end scenario — 1000 samples at 100 Hz, `wlen` unset,
`per_lap = 0.9`, `mult = 8`: the resolved window length is 1 s,
`nfft = nearestPow2(100) = 128`, `noverlap = 115`, `pad_to = 1024`, and the
raw spectrum handed to the Amplitude Transform has 65 frequency rows
(grid rows and frequency entries) before DC removal and 64 after. -/
theorem endToEnd_scenario (power : ℕ → ℕ → ℚ) (rlog10 rsqrt : ℚ → ℚ)
    (dbscale : Bool) (data : List ℚ) (hlen : data.length = 1000) :
    resolveWlen 100 none = 1 ∧
    plannedNfft data 100 none = 128 ∧
    planNlap 128 (9 / 10) = 115 ∧
    planPadTo (some 8) 128 = some 1024 ∧
    ∃ raw, runEstimator power data 100 (9 / 10) none (some 8) = .ok raw ∧
      raw.S.length = 65 ∧ raw.freq.length = 65 ∧
      (ampTransform rlog10 rsqrt dbscale raw.S).length = 64 ∧
      (raw.freq.drop 1).length = 64 := by
  refine ⟨by norm_num [resolveWlen], plannedNfft_len1000 data hlen,
    planNlap_128, planPadTo_8_128,
    rawScenario power, runEstimator_scenario power data hlen, ?_, ?_, ?_, ?_⟩
  · simp [rawScenario]
  · simp [rawScenario]
  · cases dbscale <;> simp [ampTransform, rawScenario]
  · simp [rawScenario]

/-- Witness for C4 at the concrete 1000-sample signal. -/
theorem endToEnd_scenario_witness :
    plannedNfft (List.replicate 1000 (0 : ℚ)) 100 none = 128 ∧
    planNlap 128 (9 / 10) = 115 := by
  obtain ⟨-, h2, h3, -, -⟩ := endToEnd_scenario (fun _ _ => 0) id id false
    (List.replicate 1000 0) (List.length_replicate 1000 0)
  exact ⟨h2, h3⟩

end Spectrogram
